import Mathlib

/-!
Verification development for the serverless-python-monorepo build plugin
(file src/lib/monorepo.js).  The JavaScript code is shallowly embedded:

- The TOML manifest is modelled as a structured document (TomlDoc) with the
  tables the code touches (tool.poetry.dependencies and
  tool.poetry.dev-dependencies); all other content is carried opaquely.
- The JavaScript string and path operations used by the rewriter
  (String.prototype.replace with a plain-string pattern, String.prototype.split,
  Array.prototype.slice/join, String.prototype.indexOf, and Node
  path.posix.join / path.posix.basename / normalize) are modelled on lists of
  characters, following the Node.js reference semantics.
- File-system effects are modelled as an association list from path to file
  content, plus an explicit event trace (read / remove / write).
- The promise chain of buildDockerPoetryMonorepo is modelled as a linear list
  of stages executed until the first rejection.
-/

/-- Errors a JavaScript execution of the rewriter can raise:
a TypeError from a property access (or Object.keys) on undefined, and
an ENOENT Error from fs.readFileSync on a missing file. -/
inductive JsErr
  | typeError
  | enoent
deriving DecidableEq

/-- A dependency entry that is a TOML inline table: optional boolean field
develop, optional string field path, other fields carried opaquely. -/
structure DepObject where
  develop : Option Bool
  path : Option String
  other : List (String × String)
deriving DecidableEq

/-- A value of the tool.poetry.dependencies table: either a plain version
string or an inline table (the only shapes the code distinguishes, via
typeof dependency === 'object'). -/
inductive Dep
  | ver (s : String)
  | obj (o : DepObject)
deriving DecidableEq

/-- The tool.poetry table: the dependencies and dev-dependencies sub-tables
(each possibly absent), other keys carried opaquely. -/
structure PoetryTable where
  dependencies : Option (List (String × Dep))
  devDependencies : Option (List (String × Dep))
  other : List (String × String)
deriving DecidableEq

/-- The tool table: the poetry sub-table (possibly absent), other keys
carried opaquely. -/
structure ToolTable where
  poetry : Option PoetryTable
  other : List (String × String)
deriving DecidableEq

/-- A parsed manifest document: the tool table (possibly absent), other
top-level keys carried opaquely. -/
structure TomlDoc where
  tool : Option ToolTable
  other : List (String × String)
deriving DecidableEq

deriving instance DecidableEq for Except

/-- Splits a list of characters at every occurrence of the separator, never
dropping empty pieces: the semantics of JavaScript str.split(sep) for a
one-character separator.  The result is always non-empty. -/
def splitCharList (c : Char) : List Char → List (List Char)
  | [] => [[]]
  | x :: xs =>
    if x = c then [] :: splitCharList c xs
    else
      match splitCharList c xs with
      | [] => [[x]]
      | h :: t => (x :: h) :: t

/-- Joins pieces with a separator character: the semantics of JavaScript
arr.join(sep) for a one-character separator. -/
def joinChar (c : Char) : List (List Char) → List Char
  | [] => []
  | [x] => x
  | x :: y :: t => x ++ c :: joinChar c (y :: t)

/-- Replaces the first occurrence of pat by repl: the semantics of JavaScript
str.replace(pat, repl) with a plain-string pattern (only the first match is
replaced; the string is returned unchanged when pat does not occur). -/
def replaceFirstL (pat repl : List Char) : List Char → List Char
  | [] => if pat.isEmpty then repl else []
  | x :: xs =>
    if pat.isPrefixOf (x :: xs) then repl ++ (x :: xs).drop pat.length
    else x :: replaceFirstL pat repl xs

/-- String wrapper for replaceFirstL: models tomlFilePath.replace(projectRootPath, ...). -/
def jsReplaceFirst (s pat repl : String) : String :=
  ⟨replaceFirstL pat.data repl.data s.data⟩

/-- Substring test: true when pat occurs contiguously in the list, the
semantics of JavaScript str.indexOf(pat) > -1. -/
def hasSubstrL (pat : List Char) : List Char → Bool
  | [] => pat.isEmpty
  | x :: xs => pat.isPrefixOf (x :: xs) || hasSubstrL pat xs

/-- Models dependency.path.indexOf('..') > -1, the trigger the code uses to
decide that a path needs the container-side rewrite.  Note this is substring
containment, not a parent-directory segment test. -/
def containsDotDot (s : String) : Bool :=
  hasSubstrL ['.', '.'] s.data

/-- One step of Node path normalization: pushes a segment onto the (reversed)
resolved-segment stack.  Empty and single-dot segments are dropped; a
parent-directory segment pops the stack, is kept when the path is relative
and the stack cannot be popped, and is dropped when the path is absolute. -/
def pushSeg (allowAbove : Bool) (acc : List (List Char)) (seg : List Char) : List (List Char) :=
  if seg = [] ∨ seg = ['.'] then acc
  else if seg = ['.', '.'] then
    match acc with
    | [] => if allowAbove then [seg] else []
    | top :: rest => if top = ['.', '.'] then seg :: acc else rest
  else seg :: acc

/-- Node path.posix.normalize on a character list: resolves single-dot and
parent-directory segments, collapses repeated separators, preserves
absoluteness and a trailing separator, and returns a single dot for an
empty relative result. -/
def normalizeL (p : List Char) : List Char :=
  let isAbs : Bool := p.head? = some '/'
  let trailing : Bool := p.getLast? = some '/'
  let stack := ((splitCharList '/' p).foldl (pushSeg !isAbs) []).reverse
  let core := joinChar '/' stack
  if core = [] then
    if isAbs then ['/'] else if trailing then ['.', '/'] else ['.']
  else
    let withTrail := if trailing then core ++ ['/'] else core
    if isAbs then '/' :: withTrail else withTrail

/-- Node path.posix.join: the non-empty parts are joined with a separator and
the result is normalized; a single dot is returned when every part is empty. -/
def jsPathJoin (parts : List String) : String :=
  match (parts.map String.data).filter (fun l => l ≠ []) with
  | [] => "."
  | l => ⟨normalizeL (joinChar '/' l)⟩

/-- Node path.posix.basename: trailing separators are dropped, then the last
separator-free run of characters is returned. -/
def jsBasename (s : String) : String :=
  ⟨(((s.data.reverse.dropWhile (fun c => c = '/')).takeWhile (fun c => c ≠ '/'))).reverse⟩

/-- The container-side directory of a manifest, as computed by the source
(lines 239 to 241): the first occurrence of projectRootPath in tomlFilePath is
replaced by /var/task, the result is split on the separator, the last piece
(the manifest file name) is dropped, and the pieces are rejoined. -/
def dockerModulePath (projectRootPath tomlFilePath : String) : String :=
  let dockerTomlPath := jsReplaceFirst tomlFilePath projectRootPath "/var/task"
  ⟨joinChar '/' ((splitCharList '/' dockerTomlPath.data).dropLast)⟩

/-- Clears a truthy develop flag, models lines 205 to 208 of the source:
if (dependency.develop) delete dependency.develop.  A false flag is falsy in
JavaScript, so it is kept. -/
def clearDevelop (o : DepObject) : DepObject :=
  if o.develop = some true then { o with develop := none } else o

/-- The path rewrite of lines 238 to 246 of the source: when a project root
was supplied and is non-empty, and the declared path contains the dot-dot
substring, the path is replaced by its resolution against the container-side
directory of the manifest.  The truthiness test on dependency.path is
subsumed: an absent path skips the branch, and an empty path never contains
the dot-dot substring. -/
def rewritePath (tomlFilePath : String) (projectRootPath : Option String) (o : DepObject) : DepObject :=
  match projectRootPath, o.path with
  | some root, some p =>
    if 0 < root.length ∧ containsDotDot p = true then
      { o with path := some (jsPathJoin [dockerModulePath root tomlFilePath, p]) }
    else o
  | _, _ => o

/-- The per-dependency transformation of the forEach body (lines 200 to 248):
plain version strings are left alone; an inline table has its truthy develop
flag cleared and then its path possibly rewritten. -/
def transformDep (tomlFilePath : String) (projectRootPath : Option String) : Dep → Dep
  | Dep.ver v => Dep.ver v
  | Dep.obj o => Dep.obj (rewritePath tomlFilePath projectRootPath (clearDevelop o))

/-- The document-level part of removeTomlEditableDependencies (lines 192 to
250): accessing tool, then poetry, then the keys of dependencies raises a
TypeError when the corresponding table is absent; otherwise every dependency
entry is transformed in place and the dev-dependencies table is deleted. -/
def removeTomlEditableDependenciesDoc (tomlFileContents : TomlDoc) (tomlFilePath : String)
    (projectRootPath : Option String) : Except JsErr TomlDoc :=
  match tomlFileContents.tool with
  | none => Except.error JsErr.typeError
  | some tool =>
    match tool.poetry with
    | none => Except.error JsErr.typeError
    | some poetry =>
      match poetry.dependencies with
      | none => Except.error JsErr.typeError
      | some dependencies =>
        let rewritten := dependencies.map fun kv =>
          (kv.1, transformDep tomlFilePath projectRootPath kv.2)
        Except.ok { tomlFileContents with
          tool := some { tool with
            poetry := some { poetry with
              dependencies := some rewritten,
              devDependencies := none } } }

/-- The tool.poetry.dependencies table of a document, when every level exists. -/
def getDependencies (doc : TomlDoc) : Option (List (String × Dep)) :=
  doc.tool.bind fun tool => tool.poetry.bind fun poetry => poetry.dependencies

/-- The dependency entries of a document, empty when a level is absent. -/
def depsOf (doc : TomlDoc) : List (String × Dep) :=
  (getDependencies doc).getD []

/-- The tool.poetry.dev-dependencies table of a document, when every level exists. -/
def getDevDependencies (doc : TomlDoc) : Option (List (String × Dep)) :=
  doc.tool.bind fun tool => tool.poetry.bind fun poetry => poetry.devDependencies

/-- The develop flag of a dependency entry (absent on version strings). -/
def depDevelop : Dep → Option Bool
  | Dep.ver _ => none
  | Dep.obj o => o.develop

/-- The path field of a dependency entry (absent on version strings). -/
def depPath : Dep → Option String
  | Dep.ver _ => none
  | Dep.obj o => o.path

/-- True when no dependency entry of the document carries develop = true. -/
def noDevelopTrue (doc : TomlDoc) : Bool :=
  (depsOf doc).all fun kv =>
    match depDevelop kv.2 with
    | some true => false
    | _ => true

/-- True when an optional path is present and absolute (starts with the
separator). -/
def optPathAbs : Option String → Bool
  | some p => p.data.head? = some '/'
  | none => false

/-- A document equal to the input except that the dev-dependencies table has
been removed (the input itself when the poetry table is absent). -/
def setDevDepsNone (doc : TomlDoc) : TomlDoc :=
  match doc.tool with
  | none => doc
  | some tool =>
    match tool.poetry with
    | none => doc
    | some poetry =>
      { doc with tool := some { tool with poetry := some { poetry with devDependencies := none } } }

/-- A file-system event observable from the rewriter: a readFileSync, an
fs.rmSync, or an fs.writeFileSync on a path. -/
inductive FsEvent
  | read (p : String)
  | remove (p : String)
  | write (p : String)
deriving DecidableEq

/-- A file system: an association list from path to file content. -/
def lookupFile {α : Type} (fs : List (String × α)) (p : String) : Option α :=
  (fs.find? fun kv => kv.1 = p).map fun kv => kv.2

/-- Removes the entry at a path (a no-op when the path is absent), modelling
fs.rmSync with force. -/
def removeFile {α : Type} (fs : List (String × α)) (p : String) : List (String × α) :=
  fs.filter fun kv => ¬(kv.1 = p)

/-- Writes content at a path, replacing any previous entry. -/
def setFile {α : Type} (fs : List (String × α)) (p : String) (v : α) : List (String × α) :=
  removeFile fs p ++ [(p, v)]

/-- The guard of line 185 of the source: !tomlFilePath || tomlFilePath.length
less than 2.  An absent (undefined) argument and the empty string are falsy;
the empty string is also covered by the length test. -/
def tomlPathTooShort : Option String → Bool
  | none => true
  | some p => decide (p.length < 2)

/-- The outcome of one call of the file-level rewriter: the raised error if
any, the file system afterwards, and the trace of file events. -/
structure RewriteOutcome where
  err : Option JsErr
  fs : List (String × TomlDoc)
  events : List FsEvent
deriving DecidableEq

/-- The file-level removeTomlEditableDependencies (lines 184 to 254): the
short-path guard returns silently; otherwise the manifest is read (ENOENT
when absent), rewritten at document level (propagating the TypeError raised
before any mutation of the file), and finally deleted and rewritten in
place. -/
def removeTomlEditableDependencies (tomlFilePath : Option String)
    (projectRootPath : Option String) (fs : List (String × TomlDoc)) : RewriteOutcome :=
  match tomlFilePath with
  | none => ⟨none, fs, []⟩
  | some tp =>
    if tp.length < 2 then ⟨none, fs, []⟩
    else
      match lookupFile fs tp with
      | none => ⟨some JsErr.enoent, fs, [FsEvent.read tp]⟩
      | some doc =>
        match removeTomlEditableDependenciesDoc doc tp projectRootPath with
        | Except.error e => ⟨some e, fs, [FsEvent.read tp]⟩
        | Except.ok doc2 =>
          ⟨none, setFile (removeFile fs tp) tp doc2, [FsEvent.read tp, FsEvent.remove tp, FsEvent.write tp]⟩

/-- The document-level rewriting a single manifest receives from the whole
pipeline: the root manifest is rewritten once without a project root (line
67) and then again with the bind path when the find step lists it (line 82);
every other manifest is rewritten once with the bind path. -/
def pipelineRewriteDoc (isRoot : Bool) (bindPath tomlFilePath : String) (doc : TomlDoc) :
    Except JsErr TomlDoc :=
  if isRoot then
    (removeTomlEditableDependenciesDoc doc tomlFilePath none).bind fun d1 =>
      removeTomlEditableDependenciesDoc d1 tomlFilePath (some bindPath)
  else removeTomlEditableDependenciesDoc doc tomlFilePath (some bindPath)

/-- The per-dependency effect of pipelineRewriteDoc. -/
def pipeTransformDep (isRoot : Bool) (bindPath tomlFilePath : String) (d : Dep) : Dep :=
  transformDep tomlFilePath (some bindPath) (if isRoot then transformDep tomlFilePath none d else d)

/-- True when a dependency entry, after one path rewrite, would no longer
trigger the rewrite condition: either the rewrite condition does not hold,
or the rewritten path is free of the dot-dot substring. -/
def depRejoinClean (tomlFilePath : String) (projectRootPath : Option String) : Dep → Bool
  | Dep.ver _ => true
  | Dep.obj o =>
    match projectRootPath, o.path with
    | some root, some p =>
      if 0 < root.length ∧ containsDotDot p = true then
        !containsDotDot (jsPathJoin [dockerModulePath root tomlFilePath, p])
      else true
    | _, _ => true

/-- The stages of the buildDockerPoetryMonorepo promise chain, in source
order (lines 56 to 127). -/
inductive PipeStep
  | copyMonorepo
  | rewriteRootManifest
  | findManifests
  | rewriteAllManifests
  | dockerInstall
  | collectArtifacts
  | cleanupBindPath
deriving DecidableEq

/-- The success or failure of the external processes the pipeline awaits:
the rsync copy of the monorepo, the find listing the manifests, the docker
poetry install, and the rsync collecting the site-packages. -/
structure ExtOutcomes where
  copyOk : Bool
  findOk : Bool
  dockerOk : Bool
  collectOk : Bool
deriving DecidableEq

/-- Whether a stage succeeds under the given external outcomes; the
synchronous local stages (the manifest rewrites and the bind-path cleanup)
are taken as succeeding. -/
def pipeStepOk (o : ExtOutcomes) : PipeStep → Bool
  | PipeStep.copyMonorepo => o.copyOk
  | PipeStep.findManifests => o.findOk
  | PipeStep.dockerInstall => o.dockerOk
  | PipeStep.collectArtifacts => o.collectOk
  | _ => true

/-- Runs a list of chained stages in order, stopping at the first failure:
the executed stages and whether the chain resolved.  This models sequential
promise chaining, where a rejection skips every later then-handler. -/
def runChain (ok : PipeStep → Bool) : List PipeStep → List PipeStep × Bool
  | [] => ([], true)
  | s :: rest =>
    if ok s then
      let r := runChain ok rest
      (s :: r.1, r.2)
    else ([s], false)

/-- The stage order of buildDockerPoetryMonorepo: copy, rewrite the root
manifest, find every manifest, rewrite them all, run the docker install,
collect the artifacts, and only then clean up the bind path (lines 56 to
127; the cleanup is the last then-handler of the chain). -/
def pipelineSteps : List PipeStep :=
  [PipeStep.copyMonorepo, PipeStep.rewriteRootManifest, PipeStep.findManifests,
   PipeStep.rewriteAllManifests, PipeStep.dockerInstall, PipeStep.collectArtifacts,
   PipeStep.cleanupBindPath]

/-- The control flow of buildDockerPoetryMonorepo: a disabled feature flag
returns immediately (lines 28 to 30); otherwise the stages run as a chain. -/
def buildDockerPoetryMonorepo (enabled : Bool) (o : ExtOutcomes) : List PipeStep × Bool :=
  if enabled then runChain (pipeStepOk o) pipelineSteps else ([], true)

/-- The archive path used by zipMonoRepoDeps and addDepsToZipFile:
path.join(servicePath, '.serverless') plus the service base name with a zip
extension (lines 142 to 145 and 150). -/
def monoZipPath (servicePath : String) : String :=
  jsPathJoin [servicePath, ".serverless"] ++ "/" ++ jsBasename servicePath ++ ".zip"

/-- The control flow of zipMonoRepoDeps (lines 136 to 159): when the feature
is enabled, any archive at the target path is force-removed first, then the
external zip either writes the new archive and the call resolves, or fails
and the call rejects with the diagnostic text.  The first component is the
rejection value, the second the file system afterwards. -/
def zipMonoRepoDeps (enabled zipOk : Bool) (servicePath stderrText zipData : String)
    (fs : List (String × String)) : Option String × List (String × String) :=
  if enabled then
    let zp := monoZipPath servicePath
    let fs1 := removeFile fs zp
    if zipOk then (none, setFile fs1 zp zipData)
    else (some stderrText, fs1)
  else (none, fs)

/-- True when a dependency entry is a plain version string. -/
def isVerDep : Dep → Bool
  | Dep.ver _ => true
  | Dep.obj _ => false

/-- Builds a manifest document with the given dependencies, dev-dependencies
and extra poetry-table keys (the other opaque levels left empty). -/
def mkManifest (deps : List (String × Dep)) (dev : Option (List (String × Dep)))
    (pOther : List (String × String)) : TomlDoc :=
  let poetry : PoetryTable :=
    { dependencies := some deps, devDependencies := dev, other := pOther }
  let tool : ToolTable := { poetry := some poetry, other := [] }
  { tool := some tool, other := [] }

/-- A manifest with one editable sibling dependency, as in the testable
property of the spec. -/
def c1Doc : TomlDoc :=
  mkManifest
    [("sibling", Dep.obj { develop := some true, path := some "../sibling", other := [] })]
    none []

/-- The expected rewrite of c1Doc: develop flag gone, path made absolute
inside the container mount. -/
def c1DocOut : TomlDoc :=
  mkManifest
    [("sibling", Dep.obj { develop := none, path := some "/var/task/sibling", other := [] })]
    none []

/-- A root manifest with an editable sibling dependency and a
dev-dependencies table. -/
def c2WDoc : TomlDoc :=
  mkManifest
    [("shared", Dep.obj { develop := some true, path := some "../shared", other := [] })]
    (some [("pytest", Dep.ver "1.0")]) []

/-- The pipeline rewrite of c2WDoc. -/
def c2WDoc2 : TomlDoc :=
  mkManifest
    [("shared", Dep.obj { develop := none, path := some "/var/task/shared", other := [] })]
    none []

/-- A manifest whose sibling path climbs above the mount root. -/
def c2CDoc : TomlDoc :=
  mkManifest
    [("esc", Dep.obj { develop := none, path := some "../../../../etc", other := [] })]
    none []

/-- The pipeline rewrite of c2CDoc: the path resolves to a location outside
the container mount point. -/
def c2CDocOut : TomlDoc :=
  mkManifest
    [("esc", Dep.obj { develop := none, path := some "/etc", other := [] })]
    none []

/-- A manifest whose dependency path keeps the dot-dot substring after one
rewrite (the dot-dot is part of a plain segment name). -/
def c4CDoc : TomlDoc :=
  mkManifest
    [("weird", Dep.obj { develop := none, path := some "../my..lib", other := [] })]
    none []

/-- A manifest with one editable sibling dependency, for the idempotence
witness. -/
def c4WDoc : TomlDoc :=
  mkManifest
    [("shared", Dep.obj { develop := some true, path := some "../shared", other := [] })]
    none []

/-- The single rewrite of c4WDoc. -/
def c4WDoc1 : TomlDoc :=
  mkManifest
    [("shared", Dep.obj { develop := none, path := some "/var/task/shared", other := [] })]
    none []

/-- A manifest whose dependency path has no parent-directory segment but
does contain the dot-dot substring inside a segment name. -/
def c5CDoc : TomlDoc :=
  mkManifest
    [("weird", Dep.obj { develop := none, path := some "./my..lib", other := [] })]
    none []

/-- The rewrite of c5CDoc: the path was changed although it never traversed
upward. -/
def c5CDocOut : TomlDoc :=
  mkManifest
    [("weird", Dep.obj { develop := none, path := some "/var/task/lib/my..lib", other := [] })]
    none []

/-- A manifest with a dot-dot-free relative path dependency. -/
def c5WDoc : TomlDoc :=
  mkManifest
    [("vendor", Dep.obj { develop := none, path := some "./vendor", other := [] })]
    none []

/-- The rewrite of c5WDoc: the path is untouched. -/
def c5WDocOut : TomlDoc :=
  mkManifest
    [("vendor", Dep.obj { develop := none, path := some "./vendor", other := [] })]
    none []

/-- A manifest with a dev-dependencies table, for the removal witness. -/
def c6WDoc : TomlDoc :=
  mkManifest [("requests", Dep.ver "2.0")] (some [("pytest", Dep.ver "1.0")]) []

/-- The rewrite of c6WDoc. -/
def c6WDoc2 : TomlDoc :=
  mkManifest [("requests", Dep.ver "2.0")] none []

/-- A manifest whose dependencies are all plain version strings. -/
def c7WDoc : TomlDoc :=
  mkManifest [("requests", Dep.ver "2.0"), ("flask", Dep.ver "1.1")]
    (some [("pytest", Dep.ver "6.0")]) [("name", "api")]

/-- A file system holding c7WDoc at a manifest path. -/
def c7WFs : List (String × TomlDoc) :=
  [("/srv/api/pyproject.toml", c7WDoc)]

/-- A manifest that parses but has no tool table at all. -/
def c9WDoc : TomlDoc :=
  { tool := none, other := [("project", "api")] }

/-- A file system holding c9WDoc at a manifest path. -/
def c9WFs : List (String × TomlDoc) :=
  [("/srv/api/pyproject.toml", c9WDoc)]

/-- A file system holding a pre-existing archive at the zip target path. -/
def c10WFs : List (String × String) :=
  [(monoZipPath "/srv/api", "OLDZIP")]

lemma splitCharList_ne_nil (c : Char) (l : List Char) : splitCharList c l ≠ [] := by
  induction l with
  | nil => simp [splitCharList]
  | cons x xs ih =>
    simp only [splitCharList]
    split
    · simp
    · split <;> simp

lemma splitCharList_cons_self (c : Char) (xs : List Char) :
    splitCharList c (c :: xs) = [] :: splitCharList c xs := by
  simp [splitCharList]

lemma splitCharList_length_ge_two (c : Char) (l : List Char) (h : c ∈ l) :
    2 ≤ (splitCharList c l).length := by
  induction l with
  | nil => simp at h
  | cons x xs ih =>
    by_cases hx : x = c
    · rw [hx, splitCharList_cons_self]
      have := splitCharList_ne_nil c xs
      have hlen : 0 < (splitCharList c xs).length := List.length_pos.mpr this
      simp only [List.length_cons]
      omega
    · have hmem : c ∈ xs := by
        rcases List.mem_cons.mp h with h1 | h1
        · exact absurd h1.symm hx
        · exact h1
      have h2 := ih hmem
      simp only [splitCharList, if_neg hx]
      cases E : splitCharList c xs with
      | nil => exact absurd E (splitCharList_ne_nil c xs)
      | cons hd tl =>
        rw [E] at h2
        simp only [List.length_cons] at h2 ⊢
        omega

lemma replaceFirstL_isPrefixOf (pat repl l : List Char) (h : pat.isPrefixOf l = true) :
    replaceFirstL pat repl l = repl ++ l.drop pat.length := by
  cases l with
  | nil =>
    cases pat with
    | nil => simp [replaceFirstL]
    | cons a as => simp [List.isPrefixOf] at h
  | cons x xs => simp [replaceFirstL, h]

lemma normalizeL_abs (p : List Char) (hp : p.head? = some '/') :
    (normalizeL p).head? = some '/' := by
  simp only [normalizeL, hp]
  norm_num
  split
  · simp
  · split <;> simp

lemma jsPathJoin_abs (a b : String) (ha : a.data.head? = some '/') :
    (jsPathJoin [a, b]).data.head? = some '/' := by
  obtain ⟨as, ha2⟩ : ∃ as, a.data = '/' :: as := by
    cases E : a.data with
    | nil => rw [E] at ha; simp at ha
    | cons y ys =>
      rw [E] at ha
      simp at ha
      exact ⟨ys, by rw [ha]⟩
  cases hb : b.data with
  | nil =>
    have hfilter : ([a, b].map String.data).filter (fun l => l ≠ []) = [('/' :: as)] := by
      simp [ha2, hb]
    show ((jsPathJoin [a, b]).data).head? = some '/'
    unfold jsPathJoin
    rw [hfilter]
    show (normalizeL ('/' :: as)).head? = some '/'
    exact normalizeL_abs _ rfl
  | cons y ys =>
    have hfilter : ([a, b].map String.data).filter (fun l => l ≠ []) = [('/' :: as), (y :: ys)] := by
      simp [ha2, hb]
    show ((jsPathJoin [a, b]).data).head? = some '/'
    unfold jsPathJoin
    rw [hfilter]
    show (normalizeL (('/' :: as) ++ '/' :: (y :: ys))).head? = some '/'
    exact normalizeL_abs _ rfl

lemma dockerModulePath_head (root tfp : String)
    (hpre : root.data.isPrefixOf tfp.data = true) :
    (dockerModulePath root tfp).data.head? = some '/' := by
  have h1 : (jsReplaceFirst tfp root "/var/task").data
      = '/' :: ("var/task".data ++ tfp.data.drop root.data.length) := by
    show replaceFirstL root.data ("/var/task".data) tfp.data = _
    rw [replaceFirstL_isPrefixOf _ _ _ hpre]
    rfl
  show (joinChar '/' ((splitCharList '/' (jsReplaceFirst tfp root "/var/task").data).dropLast)).head?
      = some '/'
  rw [h1, splitCharList_cons_self]
  have hmem : '/' ∈ ("var/task".data ++ tfp.data.drop root.data.length) := by
    apply List.mem_append.mpr
    left
    decide
  have hlen := splitCharList_length_ge_two '/' _ hmem
  cases E : splitCharList '/' ("var/task".data ++ tfp.data.drop root.data.length) with
  | nil => exact absurd E (splitCharList_ne_nil _ _)
  | cons y t1 =>
    cases t1 with
    | nil =>
      rw [E] at hlen
      simp only [List.length_singleton] at hlen
      omega
    | cons z t =>
      rw [List.dropLast_cons₂, List.dropLast_cons₂]
      simp [joinChar]

lemma clearDevelop_develop_ne (o : DepObject) : (clearDevelop o).develop ≠ some true := by
  unfold clearDevelop
  split
  · simp
  · assumption

lemma clearDevelop_path (o : DepObject) : (clearDevelop o).path = o.path := by
  unfold clearDevelop
  split <;> rfl

lemma clearDevelop_of_ne (o : DepObject) (h : o.develop ≠ some true) : clearDevelop o = o := by
  unfold clearDevelop
  exact if_neg h

lemma rewritePath_develop (tfp : String) (ρ : Option String) (o : DepObject) :
    (rewritePath tfp ρ o).develop = o.develop := by
  unfold rewritePath
  cases ρ with
  | none => cases o.path <;> rfl
  | some root =>
    cases h : o.path with
    | none => rfl
    | some p =>
      show (if 0 < root.length ∧ containsDotDot p = true then
          { o with path := some (jsPathJoin [dockerModulePath root tfp, p]) }
        else o).develop = o.develop
      split <;> rfl

lemma rewritePath_none (tfp : String) (o : DepObject) : rewritePath tfp none o = o := by
  unfold rewritePath
  cases o.path <;> rfl

lemma rewritePath_path_of_none (tfp : String) (ρ : Option String) (o : DepObject)
    (h : o.path = none) : rewritePath tfp ρ o = o := by
  unfold rewritePath
  cases ρ with
  | none => cases o.path <;> rfl
  | some root => rw [h]

lemma rewritePath_not_trigger (tfp root : String) (o : DepObject) (p : String)
    (h : o.path = some p) (hcond : ¬(0 < root.length ∧ containsDotDot p = true)) :
    rewritePath tfp (some root) o = o := by
  unfold rewritePath
  rw [h]
  exact if_neg hcond

lemma rewritePath_trigger (tfp root : String) (o : DepObject) (p : String)
    (h : o.path = some p) (hcond : 0 < root.length ∧ containsDotDot p = true) :
    rewritePath tfp (some root) o
      = { o with path := some (jsPathJoin [dockerModulePath root tfp, p]) } := by
  unfold rewritePath
  rw [h]
  exact if_pos hcond

lemma transformDep_develop_ne (tfp : String) (ρ : Option String) (d : Dep) :
    depDevelop (transformDep tfp ρ d) ≠ some true := by
  cases d with
  | ver v => simp [transformDep, depDevelop]
  | obj o =>
    show (rewritePath tfp ρ (clearDevelop o)).develop ≠ some true
    rw [rewritePath_develop]
    exact clearDevelop_develop_ne o

lemma transformDep_none (tfp : String) (d : Dep) :
    depPath (transformDep tfp none d) = depPath d := by
  cases d with
  | ver v => rfl
  | obj o =>
    show (rewritePath tfp none (clearDevelop o)).path = o.path
    rw [rewritePath_none, clearDevelop_path]

lemma rewriteDoc_ok_elim (doc : TomlDoc) (tfp : String) (ρ : Option String) (doc2 : TomlDoc)
    (h : removeTomlEditableDependenciesDoc doc tfp ρ = Except.ok doc2) :
    ∃ tool poetry deps, doc.tool = some tool ∧ tool.poetry = some poetry ∧
      poetry.dependencies = some deps ∧
      doc2 = { doc with tool := some { tool with poetry := some { poetry with
        dependencies := some (deps.map fun kv => (kv.1, transformDep tfp ρ kv.2)),
        devDependencies := none } } } := by
  unfold removeTomlEditableDependenciesDoc at h
  split at h
  · simp at h
  · rename_i tool htool
    split at h
    · simp at h
    · rename_i poetry hpoetry
      split at h
      · simp at h
      · rename_i deps hdeps
        simp only [Except.ok.injEq] at h
        exact ⟨tool, poetry, deps, htool, hpoetry, hdeps, h.symm⟩

lemma rewriteDoc_err_of_none (doc : TomlDoc) (tfp : String) (ρ : Option String)
    (h : getDependencies doc = none) :
    removeTomlEditableDependenciesDoc doc tfp ρ = Except.error JsErr.typeError := by
  cases htool : doc.tool with
  | none => simp [removeTomlEditableDependenciesDoc, htool]
  | some tool =>
    cases hpoetry : tool.poetry with
    | none => simp [removeTomlEditableDependenciesDoc, htool, hpoetry]
    | some poetry =>
      cases hdeps : poetry.dependencies with
      | none => simp [removeTomlEditableDependenciesDoc, htool, hpoetry, hdeps]
      | some deps =>
        exfalso
        simp [getDependencies, htool, hpoetry, hdeps] at h

lemma rewriteDoc_ok_getDeps (doc : TomlDoc) (tfp : String) (ρ : Option String) (doc2 : TomlDoc)
    (h : removeTomlEditableDependenciesDoc doc tfp ρ = Except.ok doc2) :
    ∃ deps, getDependencies doc = some deps ∧
      getDependencies doc2 = some (deps.map fun kv => (kv.1, transformDep tfp ρ kv.2)) ∧
      getDevDependencies doc2 = none := by
  obtain ⟨tool, poetry, deps, htool, hpoetry, hdeps, hdoc2⟩ := rewriteDoc_ok_elim doc tfp ρ doc2 h
  refine ⟨deps, ?_, ?_, ?_⟩
  · simp [getDependencies, htool, hpoetry, hdeps]
  · simp [getDependencies, hdoc2]
  · simp [getDevDependencies, hdoc2]

lemma lookupFile_setFile {α : Type} (fs : List (String × α)) (p : String) (v : α) :
    lookupFile (setFile fs p v) p = some v := by
  unfold setFile removeFile lookupFile
  induction fs with
  | nil => simp
  | cons kv rest ih =>
    by_cases h : kv.1 = p
    · simp [h]
    · simp [List.filter_cons, h, List.find?_cons, ih]

lemma lookupFile_removeFile {α : Type} (fs : List (String × α)) (p : String) :
    lookupFile (removeFile fs p) p = none := by
  unfold removeFile lookupFile
  induction fs with
  | nil => simp
  | cons kv rest ih =>
    by_cases h : kv.1 = p
    · simp [List.filter_cons, h, ih]
    · simp [List.filter_cons, h, List.find?_cons, ih]

lemma getDeps_elim (doc : TomlDoc) (l : List (String × Dep))
    (h : getDependencies doc = some l) :
    ∃ tool poetry, doc.tool = some tool ∧ tool.poetry = some poetry ∧
      poetry.dependencies = some l := by
  unfold getDependencies at h
  cases htool : doc.tool with
  | none => rw [htool] at h; simp at h
  | some tool =>
    rw [htool] at h
    simp only [Option.some_bind] at h
    cases hpoetry : tool.poetry with
    | none => rw [hpoetry] at h; simp at h
    | some poetry =>
      rw [hpoetry] at h
      simp only [Option.some_bind] at h
      exact ⟨tool, poetry, rfl, hpoetry, h⟩

lemma depsOf_of_getDeps (doc : TomlDoc) (l : List (String × Dep))
    (h : getDependencies doc = some l) : depsOf doc = l := by
  unfold depsOf
  rw [h]
  rfl

lemma noDevelopTrue_of_map (doc2 : TomlDoc) (tfp : String) (ρ : Option String)
    (l : List (String × Dep))
    (h : getDependencies doc2 = some (l.map fun kv => (kv.1, transformDep tfp ρ kv.2))) :
    noDevelopTrue doc2 = true := by
  unfold noDevelopTrue
  rw [depsOf_of_getDeps doc2 _ h, List.all_eq_true]
  rintro ⟨k2, d2⟩ hm2
  rw [List.mem_map] at hm2
  obtain ⟨⟨k0, d0⟩, hm0, heq⟩ := hm2
  cases heq
  have hne := transformDep_develop_ne tfp ρ d0
  cases hdev : depDevelop (transformDep tfp ρ d0) with
  | none => simp
  | some b =>
    cases b with
    | false => simp
    | true => exact absurd hdev hne

/-- C1: rewriting the manifest at /host/stage/api/pyproject.toml with project
root /host/stage turns the dependency entry with develop = true and
path = ../sibling into an entry with no develop flag and
path = /var/task/sibling: the staging-root prefix is replaced by /var/task,
the manifest file name is stripped, and the relative path is resolved
against the resulting container-side directory. -/
theorem c1_editable_sibling_rewrite :
    removeTomlEditableDependenciesDoc c1Doc "/host/stage/api/pyproject.toml"
      (some "/host/stage") = Except.ok c1DocOut := by
  decide

/-- C5 (amended): a dependency entry whose path does not contain the
substring formed by two consecutive dots is left with its path unchanged by
the rewrite, even when a non-empty project root is supplied.  (The code
tests substring containment, not parent-directory segments, so the original
segment-based phrasing fails; see the counterexample.) -/
theorem c5_dotdot_free_path_untouched (doc doc2 : TomlDoc) (tfp : String)
    (ρ : Option String) (k : String) (d : Dep) (p : String)
    (hok : removeTomlEditableDependenciesDoc doc tfp ρ = Except.ok doc2)
    (hmem : (k, d) ∈ depsOf doc)
    (hpath : depPath d = some p)
    (hnd : containsDotDot p = false) :
    (k, transformDep tfp ρ d) ∈ depsOf doc2 ∧
      depPath (transformDep tfp ρ d) = some p := by
  obtain ⟨deps, h1, h2, _⟩ := rewriteDoc_ok_getDeps doc tfp ρ doc2 hok
  rw [depsOf_of_getDeps doc deps h1] at hmem
  constructor
  · rw [depsOf_of_getDeps doc2 _ h2]
    exact List.mem_map_of_mem (fun kv => (kv.1, transformDep tfp ρ kv.2)) hmem
  · cases d with
    | ver v => simp [depPath] at hpath
    | obj o =>
      have hop : o.path = some p := hpath
      show (rewritePath tfp ρ (clearDevelop o)).path = some p
      cases ρ with
      | none => rw [rewritePath_none, clearDevelop_path]; exact hop
      | some root =>
        rw [rewritePath_not_trigger tfp root (clearDevelop o) p
          (by rw [clearDevelop_path]; exact hop)
          (by rintro ⟨-, hc⟩; rw [hnd] at hc; exact Bool.false_ne_true hc)]
        rw [clearDevelop_path]
        exact hop

/-- C5 witness: a manifest with path ./vendor keeps that path although a
non-empty project root is supplied. -/
theorem c5_dotdot_free_path_untouched_witness :
    removeTomlEditableDependenciesDoc c5WDoc "/host/api/pyproject.toml"
        (some "/host") = Except.ok c5WDocOut ∧
      ("vendor", Dep.obj { develop := none, path := some "./vendor", other := [] })
          ∈ depsOf c5WDoc ∧
      depPath (Dep.obj { develop := none, path := some "./vendor", other := [] })
          = some "./vendor" ∧
      containsDotDot "./vendor" = false ∧
      (("vendor", transformDep "/host/api/pyproject.toml" (some "/host")
            (Dep.obj { develop := none, path := some "./vendor", other := [] }))
          ∈ depsOf c5WDocOut ∧
        depPath (transformDep "/host/api/pyproject.toml" (some "/host")
            (Dep.obj { develop := none, path := some "./vendor", other := [] }))
          = some "./vendor") :=
  ⟨by decide, by decide, by decide, by decide,
    c5_dotdot_free_path_untouched c5WDoc c5WDocOut "/host/api/pyproject.toml"
      (some "/host") "vendor" _ "./vendor" (by decide) (by decide) (by decide) (by decide)⟩

/-- C5 counterexample: the path ./my..lib contains no parent-directory
segment, yet the rewrite changes it (to /var/task/lib/my..lib), because the
code only tests for the two-dot substring. -/
theorem c5_counterexample :
    (splitCharList '/' "./my..lib".data).all (fun seg => seg ≠ ['.', '.']) = true ∧
      removeTomlEditableDependenciesDoc c5CDoc "/host/lib/pyproject.toml"
        (some "/host") = Except.ok c5CDocOut ∧
      depsOf c5CDocOut
        = [("weird", Dep.obj { develop := none, path := some "/var/task/lib/my..lib", other := [] })] ∧
      some "/var/task/lib/my..lib" ≠ some "./my..lib" := by
  decide

/-- C6: whenever the rewrite completes, the dev-dependencies table is absent
from the resulting document, whatever the input manifest contained. -/
theorem c6_devdeps_removed (doc doc2 : TomlDoc) (tfp : String) (ρ : Option String)
    (hok : removeTomlEditableDependenciesDoc doc tfp ρ = Except.ok doc2) :
    getDevDependencies doc2 = none := by
  obtain ⟨deps, _, _, h3⟩ := rewriteDoc_ok_getDeps doc tfp ρ doc2 hok
  exact h3

/-- C6 witness: a manifest with a dev-dependencies table loses it. -/
theorem c6_devdeps_removed_witness :
    removeTomlEditableDependenciesDoc c6WDoc "/srv/api/pyproject.toml" none
        = Except.ok c6WDoc2 ∧
      getDevDependencies c6WDoc2 = none :=
  ⟨by decide, c6_devdeps_removed c6WDoc c6WDoc2 "/srv/api/pyproject.toml" none (by decide)⟩

/-- C8: when the manifest path argument is absent, empty or of length one,
the rewriter returns without an error, leaves the file system unchanged and
performs no file operation at all. -/
theorem c8_short_path_silent_skip (tomlFilePath : Option String)
    (projectRootPath : Option String) (fs : List (String × TomlDoc))
    (h : tomlPathTooShort tomlFilePath = true) :
    removeTomlEditableDependencies tomlFilePath projectRootPath fs = ⟨none, fs, []⟩ := by
  cases tomlFilePath with
  | none => rfl
  | some p =>
    have hlen : p.length < 2 := by
      have := h
      unfold tomlPathTooShort at this
      exact of_decide_eq_true this
    simp [removeTomlEditableDependencies, hlen]

/-- C8 witness: a one-character manifest path is skipped silently. -/
theorem c8_short_path_silent_skip_witness :
    tomlPathTooShort (some "x") = true ∧
      removeTomlEditableDependencies (some "x") none [] = ⟨none, [], []⟩ :=
  ⟨by decide, c8_short_path_silent_skip (some "x") none [] (by decide)⟩

/-- C9: a manifest file that is present but lacks the
tool.poetry.dependencies table makes the rewriter raise a TypeError; the
failure happens before the delete-then-write step, so the file system is
unchanged and only a read was performed. -/
theorem c9_missing_table_raises (fs : List (String × TomlDoc)) (p : String)
    (doc : TomlDoc) (ρ : Option String)
    (hlen : 2 ≤ p.length)
    (hfile : lookupFile fs p = some doc)
    (hbad : getDependencies doc = none) :
    removeTomlEditableDependencies (some p) ρ fs
      = ⟨some JsErr.typeError, fs, [FsEvent.read p]⟩ := by
  have hlt : ¬p.length < 2 := by omega
  simp [removeTomlEditableDependencies, hlt, hfile, rewriteDoc_err_of_none doc p ρ hbad]

/-- C9 witness: a manifest without a tool table raises and leaves the file
system untouched. -/
theorem c9_missing_table_raises_witness :
    2 ≤ ("/srv/api/pyproject.toml" : String).length ∧
      lookupFile c9WFs "/srv/api/pyproject.toml" = some c9WDoc ∧
      getDependencies c9WDoc = none ∧
      removeTomlEditableDependencies (some "/srv/api/pyproject.toml") (some "/srv") c9WFs
        = ⟨some JsErr.typeError, c9WFs, [FsEvent.read "/srv/api/pyproject.toml"]⟩ :=
  ⟨by decide, by decide, by decide,
    c9_missing_table_raises c9WFs "/srv/api/pyproject.toml" c9WDoc (some "/srv")
      (by decide) (by decide) (by decide)⟩

lemma rewriteDoc_all_ver (doc : TomlDoc) (tfp : String) (ρ : Option String)
    (l : List (String × Dep))
    (hl : getDependencies doc = some l)
    (hver : l.all (fun kv => isVerDep kv.2) = true) :
    removeTomlEditableDependenciesDoc doc tfp ρ = Except.ok (setDevDepsNone doc) := by
  obtain ⟨tool, poetry, htool, hpoetry, hdeps⟩ := getDeps_elim doc l hl
  have hmap : (l.map fun kv => (kv.1, transformDep tfp ρ kv.2)) = l := by
    conv_rhs => rw [← List.map_id l]
    apply List.map_congr_left
    rintro ⟨k, d⟩ hmem
    have hv := List.all_eq_true.mp hver ⟨k, d⟩ hmem
    cases d with
    | ver s => rfl
    | obj o => simp [isVerDep] at hv
  simp [removeTomlEditableDependenciesDoc, htool, hpoetry, hdeps, hmap, setDevDepsNone,
    PoetryTable.mk.injEq]

lemma transformDep_idem (tfp : String) (ρ : Option String) (d : Dep)
    (hcl : depRejoinClean tfp ρ d = true) :
    transformDep tfp ρ (transformDep tfp ρ d) = transformDep tfp ρ d := by
  cases d with
  | ver v => rfl
  | obj o =>
    show Dep.obj (rewritePath tfp ρ (clearDevelop (rewritePath tfp ρ (clearDevelop o))))
        = Dep.obj (rewritePath tfp ρ (clearDevelop o))
    rw [clearDevelop_of_ne _ (by rw [rewritePath_develop]; exact clearDevelop_develop_ne o)]
    cases ρ with
    | none => rw [rewritePath_none, rewritePath_none]
    | some root =>
      cases hp : o.path with
      | none =>
        have h1 : rewritePath tfp (some root) (clearDevelop o) = clearDevelop o :=
          rewritePath_path_of_none tfp (some root) (clearDevelop o)
            (by rw [clearDevelop_path]; exact hp)
        rw [h1, h1]
      | some p =>
        by_cases hcond : 0 < root.length ∧ containsDotDot p = true
        · have h1 := rewritePath_trigger tfp root (clearDevelop o) p
            (by rw [clearDevelop_path]; exact hp) hcond
          rw [h1]
          have hP : containsDotDot (jsPathJoin [dockerModulePath root tfp, p]) = false := by
            simp only [depRejoinClean, hp] at hcl
            rw [if_pos hcond] at hcl
            simpa using hcl
          refine congrArg Dep.obj (rewritePath_not_trigger tfp root _
            (jsPathJoin [dockerModulePath root tfp, p]) rfl ?_)
          rintro ⟨-, hc⟩
          rw [hP] at hc
          exact Bool.false_ne_true hc
        · have h1 := rewritePath_not_trigger tfp root (clearDevelop o) p
            (by rw [clearDevelop_path]; exact hp) hcond
          rw [h1, h1]

/-- C7: for a manifest whose dependency entries are all plain version
strings, the rewrite succeeds and the file afterwards holds exactly the
input document with only the dev-dependencies table removed (a no-op at the
document level apart from that removal, whether or not the table was
present). -/
theorem c7_version_only_noop (fs : List (String × TomlDoc)) (p : String) (doc : TomlDoc)
    (ρ : Option String) (l : List (String × Dep))
    (hlen : 2 ≤ p.length)
    (hfile : lookupFile fs p = some doc)
    (hl : getDependencies doc = some l)
    (hver : l.all (fun kv => isVerDep kv.2) = true) :
    (removeTomlEditableDependencies (some p) ρ fs).err = none ∧
      lookupFile (removeTomlEditableDependencies (some p) ρ fs).fs p
        = some (setDevDepsNone doc) := by
  have hlt : ¬p.length < 2 := by omega
  have hrw := rewriteDoc_all_ver doc p ρ l hl hver
  have houtcome : removeTomlEditableDependencies (some p) ρ fs
      = ⟨none, setFile (removeFile fs p) p (setDevDepsNone doc),
          [FsEvent.read p, FsEvent.remove p, FsEvent.write p]⟩ := by
    simp [removeTomlEditableDependencies, hlt, hfile, hrw]
  rw [houtcome]
  exact ⟨rfl, lookupFile_setFile _ _ _⟩

/-- C7 witness: a manifest with two version-string dependencies and a
dev-dependencies table ends up unchanged except for that table. -/
theorem c7_version_only_noop_witness :
    2 ≤ ("/srv/api/pyproject.toml" : String).length ∧
      lookupFile c7WFs "/srv/api/pyproject.toml" = some c7WDoc ∧
      getDependencies c7WDoc
        = some [("requests", Dep.ver "2.0"), ("flask", Dep.ver "1.1")] ∧
      ([("requests", Dep.ver "2.0"), ("flask", Dep.ver "1.1")].all
        (fun kv => isVerDep kv.2)) = true ∧
      ((removeTomlEditableDependencies (some "/srv/api/pyproject.toml") none c7WFs).err
          = none ∧
        lookupFile (removeTomlEditableDependencies
            (some "/srv/api/pyproject.toml") none c7WFs).fs "/srv/api/pyproject.toml"
          = some (setDevDepsNone c7WDoc)) :=
  ⟨by decide, by decide, by decide, by decide,
    c7_version_only_noop c7WFs "/srv/api/pyproject.toml" c7WDoc none
      [("requests", Dep.ver "2.0"), ("flask", Dep.ver "1.1")]
      (by decide) (by decide) (by decide) (by decide)⟩

/-- C4 (amended): the rewrite is idempotent on every manifest whose
triggered path rewrites produce paths free of the two-dot substring (the
depRejoinClean condition); without that condition a second application can
rewrite a path again, because the code re-tests substring containment on
the already-absolute result (see the counterexample). -/
theorem c4_idempotent_when_clean (doc doc1 : TomlDoc) (tfp : String) (ρ : Option String)
    (hok : removeTomlEditableDependenciesDoc doc tfp ρ = Except.ok doc1)
    (hclean : (depsOf doc).all (fun kv => depRejoinClean tfp ρ kv.2) = true) :
    removeTomlEditableDependenciesDoc doc1 tfp ρ = Except.ok doc1 := by
  obtain ⟨tool, poetry, deps, htool, hpoetry, hdeps, hdoc1⟩ :=
    rewriteDoc_ok_elim doc tfp ρ doc1 hok
  have hdeps_doc : depsOf doc = deps := by
    apply depsOf_of_getDeps
    simp [getDependencies, htool, hpoetry, hdeps]
  rw [hdeps_doc] at hclean
  have hmap : ((deps.map fun kv => (kv.1, transformDep tfp ρ kv.2)).map
      fun kv => (kv.1, transformDep tfp ρ kv.2))
      = deps.map fun kv => (kv.1, transformDep tfp ρ kv.2) := by
    rw [List.map_map]
    apply List.map_congr_left
    rintro ⟨k, d⟩ hmem
    have hcl := List.all_eq_true.mp hclean ⟨k, d⟩ hmem
    simp [Function.comp, transformDep_idem tfp ρ d hcl]
  subst hdoc1
  simp [removeTomlEditableDependenciesDoc, hmap]

/-- C4 witness: a manifest with an editable sibling dependency is rewritten
once to c4WDoc1, and a second rewrite leaves c4WDoc1 unchanged. -/
theorem c4_idempotent_when_clean_witness :
    removeTomlEditableDependenciesDoc c4WDoc "/host/lib/pyproject.toml" (some "/host")
        = Except.ok c4WDoc1 ∧
      (depsOf c4WDoc).all
        (fun kv => depRejoinClean "/host/lib/pyproject.toml" (some "/host") kv.2) = true ∧
      removeTomlEditableDependenciesDoc c4WDoc1 "/host/lib/pyproject.toml" (some "/host")
        = Except.ok c4WDoc1 :=
  ⟨by decide, by decide,
    c4_idempotent_when_clean c4WDoc c4WDoc1 "/host/lib/pyproject.toml" (some "/host")
      (by decide) (by decide)⟩

/-- C4 counterexample: on a manifest whose dependency path is ../my..lib the
rewrite is not idempotent: the first application yields /var/task/my..lib,
which still contains the two-dot substring, so a second application rewrites
it again (to /var/task/lib/var/task/my..lib). -/
theorem c4_counterexample :
    (removeTomlEditableDependenciesDoc c4CDoc "/host/lib/pyproject.toml"
        (some "/host")).bind
      (fun d1 => removeTomlEditableDependenciesDoc d1 "/host/lib/pyproject.toml"
        (some "/host"))
      ≠ removeTomlEditableDependenciesDoc c4CDoc "/host/lib/pyproject.toml"
        (some "/host") := by
  decide

/-- C2 (amended): for every manifest the pipeline successfully rewrites
(the root manifest passes through the rewrite twice, once without and once
with the bind path; every other manifest once with the bind path), no
dependency entry of the result carries develop = true, and every dependency
entry whose declared path contained the two-dot substring has its path
rewritten to an absolute container-side path.  The original claim also
asserted that this absolute path lies under /var/task, which fails when the
relative path climbs above the mount root (see the counterexample). -/
theorem c2_pipeline_invariant (isRoot : Bool) (bindPath tfp : String)
    (doc doc2 : TomlDoc)
    (hb : 0 < bindPath.length)
    (hpre : bindPath.data.isPrefixOf tfp.data = true)
    (hok : pipelineRewriteDoc isRoot bindPath tfp doc = Except.ok doc2) :
    noDevelopTrue doc2 = true ∧
      ∀ k d p, (k, d) ∈ depsOf doc → depPath d = some p → containsDotDot p = true →
        (k, pipeTransformDep isRoot bindPath tfp d) ∈ depsOf doc2 ∧
        optPathAbs (depPath (pipeTransformDep isRoot bindPath tfp d)) = true := by
  cases isRoot with
  | false =>
    have hok2 : removeTomlEditableDependenciesDoc doc tfp (some bindPath)
        = Except.ok doc2 := hok
    obtain ⟨deps, h1, h2, _⟩ := rewriteDoc_ok_getDeps doc tfp (some bindPath) doc2 hok2
    refine ⟨noDevelopTrue_of_map doc2 tfp (some bindPath) deps h2, ?_⟩
    intro k d p hmem hpath hdd
    refine ⟨?_, ?_⟩
    · rw [depsOf_of_getDeps doc2 _ h2]
      rw [depsOf_of_getDeps doc _ h1] at hmem
      exact List.mem_map_of_mem _ hmem
    · cases d with
      | ver v => simp [depPath] at hpath
      | obj o =>
        have hop : o.path = some p := hpath
        have hstep : depPath (pipeTransformDep false bindPath tfp (Dep.obj o))
            = some (jsPathJoin [dockerModulePath bindPath tfp, p]) := by
          show (rewritePath tfp (some bindPath) (clearDevelop o)).path = _
          rw [rewritePath_trigger tfp bindPath (clearDevelop o) p
            (by rw [clearDevelop_path]; exact hop) ⟨hb, hdd⟩]
        rw [hstep]
        unfold optPathAbs
        apply decide_eq_true
        exact jsPathJoin_abs _ _ (dockerModulePath_head bindPath tfp hpre)
  | true =>
    have hok1 : (removeTomlEditableDependenciesDoc doc tfp none).bind
        (fun d1 => removeTomlEditableDependenciesDoc d1 tfp (some bindPath))
        = Except.ok doc2 := hok
    cases E : removeTomlEditableDependenciesDoc doc tfp none with
    | error e => rw [E] at hok1; simp [Except.bind] at hok1
    | ok doc1 =>
      rw [E] at hok1
      simp only [Except.bind] at hok1
      obtain ⟨l, hl1, hl2, _⟩ := rewriteDoc_ok_getDeps doc tfp none doc1 E
      obtain ⟨l2, hl1a, hl2a, _⟩ := rewriteDoc_ok_getDeps doc1 tfp (some bindPath) doc2 hok1
      have hll : l2 = l.map fun kv => (kv.1, transformDep tfp none kv.2) := by
        rw [hl1a] at hl2
        exact Option.some.inj hl2
      refine ⟨noDevelopTrue_of_map doc2 tfp (some bindPath) l2 hl2a, ?_⟩
      intro k d p hmem hpath hdd
      refine ⟨?_, ?_⟩
      · rw [depsOf_of_getDeps doc2 _ hl2a]
        rw [depsOf_of_getDeps doc _ hl1] at hmem
        subst hll
        have hmid : ((k, transformDep tfp none d) : String × Dep)
            ∈ l.map fun kv => (kv.1, transformDep tfp none kv.2) :=
          List.mem_map_of_mem _ hmem
        exact List.mem_map_of_mem _ hmid
      · cases d with
        | ver v => simp [depPath] at hpath
        | obj o =>
          have hop : o.path = some p := hpath
          have ht1 : transformDep tfp none (Dep.obj o) = Dep.obj (clearDevelop o) := by
            show Dep.obj (rewritePath tfp none (clearDevelop o)) = _
            rw [rewritePath_none]
          have hstep : depPath (pipeTransformDep true bindPath tfp (Dep.obj o))
              = some (jsPathJoin [dockerModulePath bindPath tfp, p]) := by
            show depPath (transformDep tfp (some bindPath)
              (transformDep tfp none (Dep.obj o))) = _
            rw [ht1]
            show (rewritePath tfp (some bindPath) (clearDevelop (clearDevelop o))).path = _
            rw [clearDevelop_of_ne _ (clearDevelop_develop_ne o)]
            rw [rewritePath_trigger tfp bindPath (clearDevelop o) p
              (by rw [clearDevelop_path]; exact hop) ⟨hb, hdd⟩]
          rw [hstep]
          unfold optPathAbs
          apply decide_eq_true
          exact jsPathJoin_abs _ _ (dockerModulePath_head bindPath tfp hpre)

/-- C2 witness: a root manifest with an editable sibling dependency ends up
with no develop flag anywhere and with the sibling path rewritten to an
absolute path under the mount point. -/
theorem c2_pipeline_invariant_witness :
    0 < ("/host" : String).length ∧
      ("/host" : String).data.isPrefixOf
        ("/host/api/pyproject.toml" : String).data = true ∧
      pipelineRewriteDoc true "/host" "/host/api/pyproject.toml" c2WDoc
        = Except.ok c2WDoc2 ∧
      noDevelopTrue c2WDoc2 = true ∧
      (("shared", pipeTransformDep true "/host" "/host/api/pyproject.toml"
          (Dep.obj { develop := some true, path := some "../shared", other := [] }))
        ∈ depsOf c2WDoc2 ∧
        optPathAbs (depPath (pipeTransformDep true "/host" "/host/api/pyproject.toml"
            (Dep.obj { develop := some true, path := some "../shared", other := [] })))
          = true) :=
  ⟨by decide, by decide, by decide,
    (c2_pipeline_invariant true "/host" "/host/api/pyproject.toml" c2WDoc c2WDoc2
      (by decide) (by decide) (by decide)).1,
    (c2_pipeline_invariant true "/host" "/host/api/pyproject.toml" c2WDoc c2WDoc2
      (by decide) (by decide) (by decide)).2 "shared"
      (Dep.obj { develop := some true, path := some "../shared", other := [] })
      "../shared" (by decide) (by decide) (by decide)⟩

/-- C2 counterexample: a nested manifest entry with path ../../../../etc is
rewritten by the pipeline to the absolute path /etc, which does not lie
under the container mount point /var/task, refuting the claim as stated. -/
theorem c2_counterexample :
    pipelineRewriteDoc false "/host" "/host/lib/pyproject.toml" c2CDoc
        = Except.ok c2CDocOut ∧
      containsDotDot "../../../../etc" = true ∧
      depsOf c2CDocOut
        = [("esc", Dep.obj { develop := none, path := some "/etc", other := [] })] ∧
      ("/var/task".data.isPrefixOf "/etc".data) = false := by
  decide

/-- C3 (amended): the bind-path cleanup stage runs exactly on the runs in
which every stage succeeds: the cleanup is the last then-handler of the
promise chain, so a rejection of the copy, find, docker-install or
artifact-collection stage skips it and the staging directory is not
destroyed. -/
theorem c3_cleanup_iff_success (o : ExtOutcomes) :
    (buildDockerPoetryMonorepo true o).2 = true ↔
      PipeStep.cleanupBindPath ∈ (buildDockerPoetryMonorepo true o).1 := by
  rcases o with ⟨c, f, d, col⟩
  cases c <;> cases f <;> cases d <;> cases col <;> decide

/-- C3 counterexample: when the copy stage fails, the pipeline rejects and
the cleanup stage is never executed, refuting the claim that the staging
directory is destroyed regardless of outcome. -/
theorem c3_counterexample :
    (buildDockerPoetryMonorepo true ⟨false, true, true, true⟩).2 = false ∧
      PipeStep.cleanupBindPath ∉
        (buildDockerPoetryMonorepo true ⟨false, true, true, true⟩).1 := by
  decide

/-- C10: the full-rebuild packaging deletes any pre-existing archive before
running the compression step, so when the compression fails the call rejects
with the diagnostic text while the old archive is already gone and is not
restored. -/
theorem c10_prior_archive_destroyed (fs : List (String × String))
    (servicePath stderrText zipData oldZip : String)
    (_hprior : lookupFile fs (monoZipPath servicePath) = some oldZip) :
    (zipMonoRepoDeps true false servicePath stderrText zipData fs).1 = some stderrText ∧
      lookupFile (zipMonoRepoDeps true false servicePath stderrText zipData fs).2
        (monoZipPath servicePath) = none := by
  constructor
  · simp [zipMonoRepoDeps]
  · simp [zipMonoRepoDeps, lookupFile_removeFile]

/-- C10 witness: with an old archive present and a failing zip run, the call
rejects and the old archive is gone. -/
theorem c10_prior_archive_destroyed_witness :
    lookupFile c10WFs (monoZipPath "/srv/api") = some "OLDZIP" ∧
      ((zipMonoRepoDeps true false "/srv/api" "zip error" "NEWZIP" c10WFs).1
          = some "zip error" ∧
        lookupFile (zipMonoRepoDeps true false "/srv/api" "zip error" "NEWZIP" c10WFs).2
          (monoZipPath "/srv/api") = none) :=
  ⟨by decide,
    c10_prior_archive_destroyed c10WFs "/srv/api" "zip error" "NEWZIP" "OLDZIP" (by decide)⟩
